import Mathlib

/-!
Shallow embedding of `cmd/bulk_fhir_fetch/bulk_fhir_fetch.go`.

The program under verification is the `mainWrapper` orchestrator together
with its helpers `getDataOrExit` and `getTransactionTimeStore`.  All
external collaborators (the bulkfhir client, the transaction-time stores,
the processing pipeline and its sinks, the job-status monitor channel) are
library code outside this repository; their observable outcomes are
supplied as an oracle environment (`FetchEnv`), and every call the
orchestrator makes to them is recorded in an event trace (`Ev`).  The
embedding mirrors the Go control flow statement by statement; logging
statements and `defer`red `Close` calls, which have no effect on the
control flow or on the claims, are not modelled.

NDJSON records are modelled by their byte length plus an opaque payload:
the only thing the orchestrator inspects about a record's bytes is whether
the `bufio.Scanner` token fits in the configured `maxTokenSize` buffer
(an oversize token makes `Scan` stop and `s.Err()` return a non-nil
error, modelled as `RunError.scanTooLong`).
-/

namespace BulkFhirFetch

/-- `maxTokenSize` from the source: maximum newline delimited token size in
bytes expected when parsing FHIR NDJSON (500 KiB). -/
def maxTokenSize : Nat := 500 * 1024

/-- `initialBufferSize` from the source (5 KiB); it does not affect the
scanner's accept/reject behaviour, only its initial allocation. -/
def initialBufferSize : Nat := 5 * 1024

/-- One newline-delimited record of a downloaded byte stream: its byte
length (`size`, which is what the scanner's token bound inspects) and an
opaque payload identifying the record to the pipeline oracle. -/
structure NDRecord where
  size : Nat
  payload : String
deriving DecidableEq, Repr

/-- Outcome of one `cl.GetData(url)` call: a byte stream (list of
newline-delimited records), `bulkfhir.ErrorUnauthorized`,
`bulkfhir.ErrorRetryableHTTPStatus`, or any other error. -/
inductive GetDataResult where
  | ok (stream : List NDRecord)
  | errUnauthorized
  | errRetryableHTTPStatus
  | errOther (msg : String)
deriving DecidableEq, Repr

/-- The retry condition of `getDataOrExit`'s loop:
`errors.Is(err, bulkfhir.ErrorUnauthorized) || errors.Is(err, bulkfhir.ErrorRetryableHTTPStatus)`. -/
def isRetryableErr : GetDataResult → Bool
  | .errUnauthorized => true
  | .errRetryableHTTPStatus => true
  | _ => false

/-- Errors returned by `getDataOrExit`:
`authErr` is `fmt.Errorf("Error authenticating with API: %w", err)` and
`getDataErr` is `fmt.Errorf("Unable to GetData(%s) %w", url, err)`,
each wrapping its underlying cause. -/
inductive FetchErr where
  | authErr (msg : String)
  | getDataErr (url : String) (underlying : GetDataResult)
deriving DecidableEq, Repr

/-- `jobStatus` snapshot (`bulkfhir.JobStatus`), as read by `mainWrapper`:
completion flag, progress, result URLs by resource type (the Go value is a
map; the embedding carries it in a concrete enumeration order, see
`mainWrapper`), and the transaction time (timestamps as `Nat`). -/
structure JobStatus where
  isComplete : Bool
  percentComplete : Int
  resultURLs : List (String × List String)
  transactionTime : Nat
deriving DecidableEq, Repr

/-- One event yielded by `cl.MonitorJobStatus`: a status snapshot plus an
optional polling error (non-fatal, only logged by `mainWrapper`). -/
structure MonitorResult where
  error : Option String
  status : JobStatus
deriving DecidableEq, Repr

/-- Observable calls `mainWrapper` makes to its collaborators, in program
order.  `getDataCall url n` is the `cl.GetData(url)` call of attempt `n`
(attempt 0 is the initial try); `authCall url n` is the `cl.Authenticate()`
call before retry `n` of that url's fetch; `sleepEv` is the fixed 2 s
backoff sleep; `setTransactionTime` is `transactionTime.Set`;
`storeCall t` is `sinceStore.Store(ctx, t)`. -/
inductive Ev where
  | buildClient
  | loadSince
  | startExport
  | setTransactionTime (t : Nat)
  | buildNDJSONSink
  | buildFHIRStoreSink
  | buildPipeline
  | getDataCall (url : String) (attempt : Nat)
  | authCall (url : String) (retry : Nat)
  | sleepEv
  | processCall (resourceType url : String) (r : NDRecord)
  | finalizeCall
  | storeCall (t : Nat)
deriving DecidableEq, Repr

/-- The retry loop of `getDataOrExit` (`for (errors.Is(err, ...) ||
errors.Is(err, ...)) && numRetries < 5`).  The loop can run at most
`5 - numRetries` more times, so it is embedded structurally on that
remaining budget, with `numRetries` kept alongside for the oracle indices;
`getDataOrExit` enters with `budget = 5, numRetries = 0`, and
`budget = 0` is exactly `numRetries < 5` being false.  Each iteration
sleeps, re-authenticates (a failure returns the auth error immediately),
re-issues `GetData`, and increments `numRetries`.  After the loop, a
remaining error is wrapped with the url; otherwise the stream is
returned. -/
def getDataLoopAux (url : String) (getData : Nat → GetDataResult)
    (auth : Nat → Option String) :
    Nat → GetDataResult → Nat → Except FetchErr (List NDRecord) × List Ev
  | 0, cur, _ =>
    match cur with
    | .ok s => (.ok s, [])
    | e => (.error (.getDataErr url e), [])
  | budget + 1, cur, numRetries =>
    if isRetryableErr cur then
      match auth numRetries with
      | some e => (.error (.authErr e), [.sleepEv, .authCall url numRetries])
      | none =>
        let rest := getDataLoopAux url getData auth budget
          (getData (numRetries + 1)) (numRetries + 1)
        (rest.1, .sleepEv :: .authCall url numRetries ::
          .getDataCall url (numRetries + 1) :: rest.2)
    else
      match cur with
      | .ok s => (.ok s, [])
      | e => (.error (.getDataErr url e), [])

/-- `getDataOrExit(cl, url, ...)`: initial `cl.GetData(url)` attempt
followed by the bounded retry-and-reauthenticate loop.  `getData n` is the
oracle outcome of attempt `n`; `auth n` is the outcome of the
re-authentication before retry `n` (`none` = success). -/
def getDataOrExit (url : String) (getData : Nat → GetDataResult)
    (auth : Nat → Option String) : Except FetchErr (List NDRecord) × List Ev :=
  let r := getDataLoopAux url getData auth 5 (getData 0) 0
  (r.1, .getDataCall url 0 :: r.2)

def countAuth (tr : List Ev) : Nat :=
  tr.countP fun e => match e with | .authCall _ _ => true | _ => false

def countGetData (tr : List Ev) : Nat :=
  tr.countP fun e => match e with | .getDataCall _ _ => true | _ => false

def countSleeps (tr : List Ev) : Nat :=
  tr.countP fun e => match e with | .sleepEv => true | _ => false

def countSetTT (tr : List Ev) : Nat :=
  tr.countP fun e => match e with | .setTransactionTime _ => true | _ => false

/-- The fields of `mainWrapperConfig` that `mainWrapper`,
`getTransactionTimeStore` and `getBulkFHIRClient` branch on.  Fields that
are merely forwarded to collaborators (endpoints, worker counts, batch
sizes, auth scopes) do not influence the orchestrator's control flow and
are absorbed into the collaborator oracles of `FetchEnv`. -/
structure mainWrapperConfig where
  clientID : String
  clientSecret : String
  outputPrefix : String
  rectify : Bool
  enableFHIRStore : Bool
  fhirStoreGCPProject : String
  fhirStoreGCPLocation : String
  fhirStoreGCPDatasetID : String
  fhirStoreID : String
  fhirStoreEnableGCSBasedUpload : Bool
  fhirStoreGCSBasedUploadBucket : String
  useGeneralizedBulkImport : Bool
  since : String
  sinceFile : String
  pendingJobURL : String
deriving DecidableEq, Repr

/-- Outcomes of every external call `mainWrapper` can make, supplied as an
oracle.  `getData url n` is attempt `n` of `cl.GetData(url)`;
`auth url n` is the re-authentication before retry `n` of that url's
fetch; `process rt url r` is `pipeline.Process(ctx, rt, url, r)` (`none` =
success); `monitorEvents` is the full sequence the `MonitorJobStatus`
channel yields before closing. -/
structure FetchEnv where
  clientBuild : Except String Unit
  sinceParse : Except String Unit
  gcsStoreBuild : Except String Unit
  emptyStoreBuild : Except String Unit
  load : Except String (Option Nat)
  startExport : Except String String
  monitorEvents : List MonitorResult
  ndjsonSinkBuild : Except String Unit
  fhirSinkBuild : Except String Unit
  pipelineBuild : Except String Unit
  getData : String → Nat → GetDataResult
  auth : String → Nat → Option String
  process : String → String → NDRecord → Option String
  finalize : Option String
  store : Option String

/-- The errors `mainWrapper` can return, one constructor per `return`
site, carrying the wrapped underlying message where the source wraps
one.  `scanTooLong` is `bufio.ErrTooLong` surfaced raw by
`if err := s.Err(); err != nil { return err }`.  `monitorNilDeref` marks
the nil-pointer dereference Go would hit at `monitorResult.Status` if the
monitor channel closed without yielding any event (the monitor's contract
is to always yield a terminal event). -/
inductive RunError where
  | emptyCredentials
  | fhirStoreFlagsMissing
  | mustRectifyForFHIRStore
  | mustSpecifyGCSBucket
  | clientBuildError (msg : String)
  | sinceConfigConflict
  | invalidSince (msg : String)
  | storeBuildError (msg : String)
  | startExportError (msg : String)
  | monitorNilDeref
  | jobTimeout
  | ndjsonSinkError (msg : String)
  | fhirStoreSinkError (msg : String)
  | pipelineBuildError (msg : String)
  | fetchFailed (e : FetchErr)
  | processFailed (msg : String)
  | scanTooLong
  | finalizeError (msg : String)
  | storeError (msg : String)
deriving DecidableEq, Repr

/-- The selected transaction-time store, one variant per constructor used
by `getTransactionTimeStore`. -/
inductive TTStore where
  | inMemory (initial : String)
  | gcs (path : String)
  | localFile (path : String)
  | inMemoryEmpty
deriving DecidableEq, Repr

/-- `strings.HasPrefix(cfg.sinceFile, "gs://")`, the dispatch test for the
GCS-backed transaction-time store.  Implemented as a character-list
prefix test (equivalent to the byte-prefix test on UTF-8 strings). -/
def hasGSPrefix (s : String) : Bool :=
  (String.data ("gs://")).isPrefixOf s.data

/-- `getTransactionTimeStore`: rejects `since` and `since_file` being set
together, then selects in-memory (parsing the explicit `since` value, a
parse failure being wrapped as `errInvalidSince`), GCS-backed (for
`gs://` paths), local-file, or empty in-memory store, in source order. -/
def getTransactionTimeStore (cfg : mainWrapperConfig) (env : FetchEnv) :
    Except RunError TTStore :=
  if cfg.since ≠ ("") ∧ cfg.sinceFile ≠ ("") then
    .error .sinceConfigConflict
  else if cfg.since ≠ ("") then
    match env.sinceParse with
    | .error e => .error (.invalidSince e)
    | .ok _ => .ok (.inMemory cfg.since)
  else if hasGSPrefix cfg.sinceFile then
    match env.gcsStoreBuild with
    | .error e => .error (.storeBuildError e)
    | .ok _ => .ok (.gcs cfg.sinceFile)
  else if cfg.sinceFile ≠ ("") then
    .ok (.localFile cfg.sinceFile)
  else
    match env.emptyStoreBuild with
    | .error e => .error (.storeBuildError e)
    | .ok _ => .ok .inMemoryEmpty

/-- The four configuration validations at the top of `mainWrapper`, in
source order (the missing-output warning at line 128 is only logged). -/
def configError (cfg : mainWrapperConfig) : Option RunError :=
  if cfg.clientID = ("") ∨ cfg.clientSecret = ("") then
    some .emptyCredentials
  else if cfg.enableFHIRStore ∧ (cfg.fhirStoreGCPProject = ("") ∨
      cfg.fhirStoreGCPLocation = ("") ∨ cfg.fhirStoreGCPDatasetID = ("") ∨
      cfg.fhirStoreID = ("")) then
    some .fhirStoreFlagsMissing
  else if cfg.enableFHIRStore ∧ ¬cfg.rectify then
    some .mustRectifyForFHIRStore
  else if cfg.fhirStoreEnableGCSBasedUpload ∧
      cfg.fhirStoreGCSBasedUploadBucket = ("") then
    some .mustSpecifyGCSBucket
  else
    none

/-- The scanner-and-process loop over one downloaded stream
(`for s.Scan() { pipeline.Process(...) }; s.Err()`): records are consumed
in order; a record whose byte length exceeds the scanner's `maxTokenSize`
buffer makes `Scan` stop with `bufio.ErrTooLong` (the oversize record is
never handed to the pipeline); a pipeline error on a record returns it
immediately. -/
def processStream (process : String → String → NDRecord → Option String)
    (resourceType url : String) :
    List NDRecord → Option RunError × List Ev
  | [] => (none, [])
  | r :: rest =>
    if r.size > maxTokenSize then
      (some .scanTooLong, [])
    else
      match process resourceType url r with
      | some e => (some (.processFailed e), [.processCall resourceType url r])
      | none =>
        let t := processStream process resourceType url rest
        (t.1, .processCall resourceType url r :: t.2)

/-- One iteration of the inner download loop body: fetch the url via
`getDataOrExit` (a fetch error is returned as-is to the caller of
`mainWrapper`), then scan and process its stream. -/
def downloadURL (env : FetchEnv) (resourceType url : String) :
    Option RunError × List Ev :=
  let f := getDataOrExit url (env.getData url) (env.auth url)
  match f.1 with
  | .error e => (some (.fetchFailed e), f.2)
  | .ok stream =>
    let p := processStream env.process resourceType url stream
    (p.1, f.2 ++ p.2)

/-- The inner loop `for _, url := range urls`: urls of one resource type
in slice order, aborting at the first error. -/
def downloadList (env : FetchEnv) (resourceType : String) :
    List String → Option RunError × List Ev
  | [] => (none, [])
  | url :: rest =>
    let d := downloadURL env resourceType url
    match d.1 with
    | some e => (some e, d.2)
    | none =>
      let t := downloadList env resourceType rest
      (t.1, d.2 ++ t.2)

/-- The outer loop `for resourceType, urls := range jobStatus.ResultURLs`.
The Go value is a map and Go does not specify (and deliberately varies)
the iteration order of `range` over a map; the embedding therefore takes
the enumeration order as part of the input (`ru` is the map in the order
the runtime happens to enumerate it). -/
def downloadAll (env : FetchEnv) :
    List (String × List String) → Option RunError × List Ev
  | [] => (none, [])
  | (resourceType, urls) :: rest =>
    let d := downloadList env resourceType urls
    match d.1 with
    | some e => (some e, d.2)
    | none =>
      let t := downloadAll env rest
      (t.1, d.2 ++ t.2)

/-- Sink and pipeline construction (`NewNDJSONSink` when an output prefix
is set, `NewFHIRStoreSink` when FHIR-store upload is enabled,
`NewPipeline`), each failure returning its wrapped error. -/
def buildPipelinePhase (cfg : mainWrapperConfig) (env : FetchEnv) :
    Option RunError × List Ev :=
  let s1 : Option RunError × List Ev :=
    if cfg.outputPrefix ≠ ("") then
      match env.ndjsonSinkBuild with
      | .error e => (some (.ndjsonSinkError e), [.buildNDJSONSink])
      | .ok _ => (none, [.buildNDJSONSink])
    else (none, [])
  match s1.1 with
  | some e => (some e, s1.2)
  | none =>
    let s2 : Option RunError × List Ev :=
      if cfg.enableFHIRStore then
        match env.fhirSinkBuild with
        | .error e => (some (.fhirStoreSinkError e), [.buildFHIRStoreSink])
        | .ok _ => (none, [.buildFHIRStoreSink])
      else (none, [])
    match s2.1 with
    | some e => (some e, s1.2 ++ s2.2)
    | none =>
      match env.pipelineBuild with
      | .error e => (some (.pipelineBuildError e), s1.2 ++ s2.2 ++ [.buildPipeline])
      | .ok _ => (none, s1.2 ++ s2.2 ++ [.buildPipeline])

/-- The tail of a successful run once the pipeline is built: download all
result urls, then `pipeline.Finalize` (its failure wrapped), then
`sinceStore.Store(ctx, jobStatus.TransactionTime)` (its failure
wrapped), then success. -/
def runFromPipeline (env : FetchEnv) (t : Nat)
    (ru : List (String × List String)) : Except RunError Unit × List Ev :=
  let d := downloadAll env ru
  match d.1 with
  | some e => (.error e, d.2)
  | none =>
    match env.finalize with
    | some e => (.error (.finalizeError e), d.2 ++ [.finalizeCall])
    | none =>
      match env.store with
      | some e => (.error (.storeError e), d.2 ++ [.finalizeCall, .storeCall t])
      | none => (.ok (), d.2 ++ [.finalizeCall, .storeCall t])

/-- What `mainWrapper` does after the monitored job reports complete:
`transactionTime.Set(jobStatus.TransactionTime)`, then sink and pipeline
construction, then the download/finalize/store tail. -/
def postComplete (cfg : mainWrapperConfig) (env : FetchEnv)
    (status : JobStatus) : Except RunError Unit × List Ev :=
  let b := buildPipelinePhase cfg env
  match b.1 with
  | some e => (.error e, .setTransactionTime status.transactionTime :: b.2)
  | none =>
    let r := runFromPipeline env status.transactionTime status.resultURLs
    (r.1, .setTransactionTime status.transactionTime :: (b.2 ++ r.2))

/-- `mainWrapper`, the whole orchestrator: configuration validation,
client construction, transaction-time store selection, `Load`, job
resolution (reuse `pendingJobURL` or `StartBulkDataExport`), consuming
the monitor channel to its last event (`monitorResult` holds the last
yielded value; an empty channel would leave it nil and Go would panic
reading `monitorResult.Status`), the completion check, and
`postComplete`. -/
def mainWrapper (cfg : mainWrapperConfig) (env : FetchEnv) :
    Except RunError Unit × List Ev :=
  match configError cfg with
  | some e => (.error e, [])
  | none =>
    match env.clientBuild with
    | .error e => (.error (.clientBuildError e), [.buildClient])
    | .ok _ =>
      match getTransactionTimeStore cfg env with
      | .error e => (.error e, [.buildClient])
      | .ok _ =>
        match env.load with
        | .error e => (.error (.invalidSince e), [.buildClient, .loadSince])
        | .ok _since =>
          let jr : Except RunError String × List Ev :=
            if cfg.pendingJobURL = ("") then
              match env.startExport with
              | .error e => (.error (.startExportError e), [.startExport])
              | .ok u => (.ok u, [.startExport])
            else (.ok cfg.pendingJobURL, [])
          match jr.1 with
          | .error e => (.error e, [.buildClient, .loadSince] ++ jr.2)
          | .ok _jobURL =>
            match env.monitorEvents.getLast? with
            | none => (.error .monitorNilDeref, [.buildClient, .loadSince] ++ jr.2)
            | some last =>
              if last.status.isComplete then
                let p := postComplete cfg env last.status
                (p.1, [.buildClient, .loadSince] ++ jr.2 ++ p.2)
              else
                (.error .jobTimeout, [.buildClient, .loadSince] ++ jr.2)

/-- The urls fetched by a run, in order: one entry per attempt-0
`GetData` call (each url visited by the download loop is first fetched at
attempt 0, exactly once). -/
def fetchedURLs (tr : List Ev) : List String :=
  tr.filterMap fun e => match e with
    | .getDataCall u 0 => some u
    | _ => none

/-- The result-url enumeration of the run's completed job (empty when the
monitor yielded no complete status). -/
def jobResultURLs (env : FetchEnv) : List (String × List String) :=
  match env.monitorEvents.getLast? with
  | some last => last.status.resultURLs
  | none => []

def exOk {ε α : Type} : Except ε α → Bool
  | .ok _ => true
  | .error _ => false

/-- Whether the run reaches the monitor's completion check with a
complete terminal status: every phase before the sink construction
succeeds and the job completed. -/
def reachesComplete (cfg : mainWrapperConfig) (env : FetchEnv) : Bool :=
  (configError cfg).isNone && exOk env.clientBuild &&
  exOk (getTransactionTimeStore cfg env) && exOk env.load &&
  (!(cfg.pendingJobURL = ("")) || exOk env.startExport) &&
  (match env.monitorEvents.getLast? with
   | some last => last.status.isComplete
   | none => false)

/-- Whether the run reaches the download loop: the job completed and the
sinks and pipeline were built. -/
def reachesDownload (cfg : mainWrapperConfig) (env : FetchEnv) : Bool :=
  reachesComplete cfg env && (buildPipelinePhase cfg env).1.isNone

/-- Events of the phases before the completion check: client
construction, checkpoint load, export start. -/
def isPreEv : Ev → Bool
  | .buildClient => true
  | .loadSince => true
  | .startExport => true
  | _ => false

/-- Events produced inside the download loop (fetch attempts,
re-authentications, backoff sleeps, per-record pipeline submissions). -/
def isDownloadEv : Ev → Bool
  | .getDataCall _ _ => true
  | .authCall _ _ => true
  | .sleepEv => true
  | .processCall _ _ _ => true
  | _ => false

/-- Events produced while constructing sinks and the pipeline. -/
def isBuildEv : Ev → Bool
  | .buildNDJSONSink => true
  | .buildFHIRStoreSink => true
  | .buildPipeline => true
  | _ => false

/-- A record the scanner cannot buffer: its byte length exceeds
`maxTokenSize`. -/
def oversize (r : NDRecord) : Bool := decide (r.size > maxTokenSize)

/-- The stream a url's first download attempt yields (empty when that
attempt does not succeed). -/
def streamOf (env : FetchEnv) (url : String) : List NDRecord :=
  match env.getData url 0 with
  | .ok s => s
  | _ => []

/-- Every result url's first download attempt succeeds. -/
def fetchesOkB (env : FetchEnv) (ru : List (String × List String)) : Bool :=
  ru.all fun p => p.2.all fun url =>
    match env.getData url 0 with
    | .ok _ => true
    | _ => false

/-- The pipeline accepts every record of every result url's stream. -/
def processOkB (env : FetchEnv) (ru : List (String × List String)) : Bool :=
  ru.all fun p => p.2.all fun url =>
    (streamOf env url).all fun r => (env.process p.1 url r).isNone

/-- Some result url's stream contains a record exceeding
`maxTokenSize`. -/
def anyOversizeB (env : FetchEnv) (ru : List (String × List String)) : Bool :=
  ru.any fun p => p.2.any fun url => (streamOf env url).any oversize

/-- How many of the three checkpoint sources are configured: the explicit
override value (`since`), a local since-file path, a remote (`gs://`)
since-file path. -/
def numSinceSources (cfg : mainWrapperConfig) : Nat :=
  (if cfg.since ≠ ("") then 1 else 0) +
  (if cfg.sinceFile ≠ ("") ∧ ¬hasGSPrefix cfg.sinceFile then 1 else 0) +
  (if hasGSPrefix cfg.sinceFile then 1 else 0)

/-- A minimal valid configuration, used by concrete witnesses. -/
def cfgHappy : mainWrapperConfig :=
  ⟨("id"), ("sec"), (""), false, false, (""), (""), (""), (""), false,
    (""), false, (""), (""), ("")⟩

/-- A collaborator environment in which everything succeeds: the job
completes with result urls `ru` and transaction time 7, every fetch
succeeds on the first attempt with one small record, the pipeline and the
checkpoint store accept everything.  Used by concrete witnesses. -/
def envHappy (ru : List (String × List String)) : FetchEnv :=
  { clientBuild := .ok (), sinceParse := .ok (), gcsStoreBuild := .ok (),
    emptyStoreBuild := .ok (), load := .ok none, startExport := .ok ("job1"),
    monitorEvents := [⟨none, ⟨true, 100, ru, 7⟩⟩],
    ndjsonSinkBuild := .ok (), fhirSinkBuild := .ok (), pipelineBuild := .ok (),
    getData := fun _ _ => .ok [⟨10, ("r")⟩],
    auth := fun _ _ => none,
    process := fun _ _ _ => none,
    finalize := none, store := none }


/-- Two enumerations of the same result-URL map, in the two orders a Go
map `range` may produce: `ruA` and `ruB` contain the same resource-type
to url bindings. -/
def ruA : List (String × List String) :=
  [(("Patient"), [("u1")]), (("Coverage"), [("u2")])]

/-- The same map as `ruA`, enumerated in the opposite order. -/
def ruB : List (String × List String) :=
  [(("Coverage"), [("u2")]), (("Patient"), [("u1")])]

/-- The happy environment except that the single result url's stream
holds one record one byte over the scanner bound. -/
def envOversize : FetchEnv :=
  { envHappy [(("Patient"), [("u1")])] with
    getData := fun _ _ => .ok [⟨maxTokenSize + 1, ("big")⟩] }

/-- A configuration that sets both the explicit `since` value and a local
since-file: two checkpoint sources at once. -/
def cfgConflictW : mainWrapperConfig :=
  { cfgHappy with
    since := ("2021-05-01T00:00:00.000+00:00"),
    sinceFile := ("f.txt") }

/-! ## Trace and phase lemmas (helpers shared by the claim theorems) -/

theorem not_mem_of_all {p : Ev → Bool} {tr : List Ev} (h : tr.all p = true)
    {e : Ev} (hp : p e = false) : e ∉ tr := by
  intro hm
  have h2 := List.all_eq_true.mp h e hm
  rw [hp] at h2
  exact Bool.noConfusion h2

theorem getDataLoopAux_all_download (url : String) (getData : Nat → GetDataResult)
    (auth : Nat → Option String) :
    ∀ budget cur n,
      ((getDataLoopAux url getData auth budget cur n).2).all isDownloadEv = true := by
  intro budget
  induction budget with
  | zero =>
    intro cur n
    rcases cur <;> simp [getDataLoopAux]
  | succ b ih =>
    intro cur n
    by_cases hr : isRetryableErr cur
    · rcases ha : auth n with _ | msg
      · simp [getDataLoopAux, hr, ha, isDownloadEv, ih]
      · simp [getDataLoopAux, hr, ha, isDownloadEv]
    · rcases cur <;> simp [getDataLoopAux, hr, isDownloadEv]

theorem getDataOrExit_all_download (url : String) (getData : Nat → GetDataResult)
    (auth : Nat → Option String) :
    ((getDataOrExit url getData auth).2).all isDownloadEv = true := by
  simp [getDataOrExit, isDownloadEv]
  exact List.all_eq_true.mp (getDataLoopAux_all_download url getData auth 5 (getData 0) 0)

theorem processStream_all_download (process : String → String → NDRecord → Option String)
    (rt url : String) :
    ∀ s, ((processStream process rt url s).2).all isDownloadEv = true := by
  intro s
  induction s with
  | nil => simp [processStream]
  | cons r rest ih =>
    by_cases ho : r.size > maxTokenSize
    · simp [processStream, ho]
    · rcases hp : process rt url r with _ | e
      · simp [processStream, ho, hp, isDownloadEv, ih]
      · simp [processStream, ho, hp, isDownloadEv]

theorem downloadURL_all_download (env : FetchEnv) (rt url : String) :
    ((downloadURL env rt url).2).all isDownloadEv = true := by
  unfold downloadURL
  rcases hf : (getDataOrExit url (env.getData url) (env.auth url)).1 with e | s
  · simpa [hf] using getDataOrExit_all_download url (env.getData url) (env.auth url)
  · simp only [hf]
    rw [List.all_append]
    rw [getDataOrExit_all_download url (env.getData url) (env.auth url)]
    rw [processStream_all_download env.process rt url s]
    rfl

theorem downloadList_all_download (env : FetchEnv) (rt : String) :
    ∀ urls, ((downloadList env rt urls).2).all isDownloadEv = true := by
  intro urls
  induction urls with
  | nil => simp [downloadList]
  | cons url rest ih =>
    unfold downloadList
    rcases hd : (downloadURL env rt url).1 with _ | e
    · simp only [hd]
      rw [List.all_append, downloadURL_all_download env rt url, ih]
      rfl
    · simpa [hd] using downloadURL_all_download env rt url

theorem downloadAll_all_download (env : FetchEnv) :
    ∀ ru, ((downloadAll env ru).2).all isDownloadEv = true := by
  intro ru
  induction ru with
  | nil => simp [downloadAll]
  | cons p rest ih =>
    unfold downloadAll
    rcases hd : (downloadList env p.1 p.2).1 with _ | e
    · simp only [hd]
      rw [List.all_append, downloadList_all_download env p.1 p.2, ih]
      rfl
    · simpa [hd] using downloadList_all_download env p.1 p.2

theorem buildPipelinePhase_all_build (cfg : mainWrapperConfig) (env : FetchEnv) :
    ((buildPipelinePhase cfg env).2).all isBuildEv = true := by
  unfold buildPipelinePhase
  by_cases h1 : cfg.outputPrefix = ("")
  · by_cases h2 : cfg.enableFHIRStore
    · rcases hf : env.fhirSinkBuild with e | u <;>
        rcases hp : env.pipelineBuild with e2 | u2 <;>
        simp [h1, h2, hf, hp, isBuildEv]
    · rcases hp : env.pipelineBuild with e2 | u2 <;>
        simp [h1, h2, hp, isBuildEv]
  · rcases hn : env.ndjsonSinkBuild with e | u
    · simp [h1, hn, isBuildEv]
    · by_cases h2 : cfg.enableFHIRStore
      · rcases hf : env.fhirSinkBuild with e | u <;>
          rcases hp : env.pipelineBuild with e2 | u2 <;>
          simp [h1, h2, hn, hf, hp, isBuildEv]
      · rcases hp : env.pipelineBuild with e2 | u2 <;>
          simp [h1, h2, hn, hp, isBuildEv]

end BulkFhirFetch
namespace BulkFhirFetch

theorem countSetTT_of_all_download {tr : List Ev} (h : tr.all isDownloadEv = true) :
    countSetTT tr = 0 := by
  unfold countSetTT
  rw [List.countP_eq_zero]
  intro a ha
  have h2 := List.all_eq_true.mp h a ha
  rcases a <;> simp_all [isDownloadEv]

theorem countSetTT_of_all_build {tr : List Ev} (h : tr.all isBuildEv = true) :
    countSetTT tr = 0 := by
  unfold countSetTT
  rw [List.countP_eq_zero]
  intro a ha
  have h2 := List.all_eq_true.mp h a ha
  rcases a <;> simp_all [isBuildEv]

theorem storeCall_not_download {tr : List Ev} (h : tr.all isDownloadEv = true)
    (t : Nat) : Ev.storeCall t ∉ tr :=
  not_mem_of_all h rfl

theorem storeCall_not_build {tr : List Ev} (h : tr.all isBuildEv = true)
    (t : Nat) : Ev.storeCall t ∉ tr :=
  not_mem_of_all h rfl

theorem finalizeCall_not_download {tr : List Ev} (h : tr.all isDownloadEv = true) :
    Ev.finalizeCall ∉ tr :=
  not_mem_of_all h rfl

theorem finalizeCall_not_build {tr : List Ev} (h : tr.all isBuildEv = true) :
    Ev.finalizeCall ∉ tr :=
  not_mem_of_all h rfl

theorem setTT_not_download {tr : List Ev} (h : tr.all isDownloadEv = true)
    (t : Nat) : Ev.setTransactionTime t ∉ tr :=
  not_mem_of_all h rfl

theorem setTT_not_build {tr : List Ev} (h : tr.all isBuildEv = true)
    (t : Nat) : Ev.setTransactionTime t ∉ tr :=
  not_mem_of_all h rfl

theorem store_mem_runFromPipeline (env : FetchEnv) (t : Nat)
    (ru : List (String × List String)) :
    (∃ t2, Ev.storeCall t2 ∈ (runFromPipeline env t ru).2) ↔
      ((downloadAll env ru).1 = none ∧ env.finalize = none) := by
  unfold runFromPipeline
  rcases hd : (downloadAll env ru).1 with _ | e
  · rcases hf : env.finalize with _ | e2
    · rcases hs : env.store with _ | e3 <;>
        simp [hd, hf, hs]
    · simp only [hd, hf]
      constructor
      · rintro ⟨t2, hm⟩
        rcases List.mem_append.mp hm with hm | hm
        · exact absurd hm (storeCall_not_download (downloadAll_all_download env ru) t2)
        · simp at hm
      · rintro ⟨_, h2⟩
        exact Option.noConfusion h2
  · simp only [hd]
    constructor
    · rintro ⟨t2, hm⟩
      exact absurd hm (storeCall_not_download (downloadAll_all_download env ru) t2)
    · rintro ⟨h2, _⟩
      exact Option.noConfusion h2

theorem finalize_mem_runFromPipeline (env : FetchEnv) (t : Nat)
    (ru : List (String × List String)) :
    Ev.finalizeCall ∈ (runFromPipeline env t ru).2 ↔
      (downloadAll env ru).1 = none := by
  unfold runFromPipeline
  rcases hd : (downloadAll env ru).1 with _ | e
  · rcases hf : env.finalize with _ | e2 <;>
      rcases hs : env.store with _ | e3 <;>
      simp [hd, hf, hs]
  · simp only [hd]
    constructor
    · intro hm
      exact absurd hm (finalizeCall_not_download (downloadAll_all_download env ru))
    · intro h2
      exact Option.noConfusion h2

theorem runFromPipeline_err (env : FetchEnv) (t : Nat)
    (ru : List (String × List String)) (e : RunError)
    (h : (downloadAll env ru).1 = some e) :
    (runFromPipeline env t ru).1 = .error e := by
  simp [runFromPipeline, h]

theorem countSetTT_append (a b : List Ev) :
    countSetTT (a ++ b) = countSetTT a + countSetTT b := by
  unfold countSetTT
  exact List.countP_append _ a b

theorem countSetTT_runFromPipeline (env : FetchEnv) (t : Nat)
    (ru : List (String × List String)) :
    countSetTT (runFromPipeline env t ru).2 = 0 := by
  unfold runFromPipeline
  have hd0 := countSetTT_of_all_download (downloadAll_all_download env ru)
  rcases hd : (downloadAll env ru).1 with _ | e
  · rcases hf : env.finalize with _ | e2
    · rcases hs : env.store with _ | e3 <;>
        simp only [hd, hf, hs] <;> rw [countSetTT_append, hd0] <;> rfl
    · simp only [hd, hf]
      rw [countSetTT_append, hd0]
      rfl
  · simp only [hd]
    exact hd0

theorem setTT_not_runFromPipeline (env : FetchEnv) (t0 : Nat)
    (ru : List (String × List String)) (t : Nat) :
    Ev.setTransactionTime t ∉ (runFromPipeline env t0 ru).2 := by
  intro hm
  have h0 := countSetTT_runFromPipeline env t0 ru
  rw [countSetTT, List.countP_eq_zero] at h0
  exact h0 _ hm rfl

theorem store_iff_finalize_postComplete (cfg : mainWrapperConfig)
    (env : FetchEnv) (st : JobStatus) :
    (∃ t2, Ev.storeCall t2 ∈ (postComplete cfg env st).2) ↔
      (Ev.finalizeCall ∈ (postComplete cfg env st).2 ∧ env.finalize = none) := by
  have hall := buildPipelinePhase_all_build cfg env
  unfold postComplete
  rcases hb : (buildPipelinePhase cfg env).1 with _ | e <;> simp only [hb]
  · constructor
    · rintro ⟨t2, hm⟩
      rcases List.mem_cons.mp hm with hm | hm
      · exact absurd hm (by simp)
      rcases List.mem_append.mp hm with hm | hm
      · exact absurd hm (storeCall_not_build hall t2)
      have h2 := (store_mem_runFromPipeline env st.transactionTime st.resultURLs).mp ⟨t2, hm⟩
      refine ⟨?_, h2.2⟩
      have hf := (finalize_mem_runFromPipeline env st.transactionTime st.resultURLs).mpr h2.1
      exact List.mem_cons.mpr (Or.inr (List.mem_append.mpr (Or.inr hf)))
    · rintro ⟨hm, hfin⟩
      rcases List.mem_cons.mp hm with hm | hm
      · exact absurd hm (by simp)
      rcases List.mem_append.mp hm with hm | hm
      · exact absurd hm (finalizeCall_not_build hall)
      have hd := (finalize_mem_runFromPipeline env st.transactionTime st.resultURLs).mp hm
      rcases (store_mem_runFromPipeline env st.transactionTime st.resultURLs).mpr ⟨hd, hfin⟩ with ⟨t2, hm2⟩
      exact ⟨t2, List.mem_cons.mpr (Or.inr (List.mem_append.mpr (Or.inr hm2)))⟩
  · constructor
    · rintro ⟨t2, hm⟩
      rcases List.mem_cons.mp hm with hm | hm
      · exact absurd hm (by simp)
      · exact absurd hm (storeCall_not_build hall t2)
    · rintro ⟨hm, _⟩
      rcases List.mem_cons.mp hm with hm | hm
      · exact absurd hm (by simp)
      · exact absurd hm (finalizeCall_not_build hall)

theorem finalize_mem_postComplete_download (cfg : mainWrapperConfig)
    (env : FetchEnv) (st : JobStatus)
    (h : Ev.finalizeCall ∈ (postComplete cfg env st).2) :
    (downloadAll env st.resultURLs).1 = none := by
  have hall := buildPipelinePhase_all_build cfg env
  unfold postComplete at h
  rcases hb : (buildPipelinePhase cfg env).1 with _ | e <;> simp only [hb] at h
  · rcases List.mem_cons.mp h with h | h
    · exact absurd h (by simp)
    rcases List.mem_append.mp h with h | h
    · exact absurd h (finalizeCall_not_build hall)
    · exact (finalize_mem_runFromPipeline env st.transactionTime st.resultURLs).mp h
  · rcases List.mem_cons.mp h with h | h
    · exact absurd h (by simp)
    · exact absurd h (finalizeCall_not_build hall)

theorem postComplete_download_err (cfg : mainWrapperConfig) (env : FetchEnv)
    (st : JobStatus) (e : RunError)
    (hb : (buildPipelinePhase cfg env).1 = none)
    (hd : (downloadAll env st.resultURLs).1 = some e) :
    (postComplete cfg env st).1 = .error e ∧
    (∀ t2, Ev.storeCall t2 ∉ (postComplete cfg env st).2) := by
  have hall := buildPipelinePhase_all_build cfg env
  constructor
  · unfold postComplete
    simp only [hb]
    exact runFromPipeline_err env st.transactionTime st.resultURLs e hd
  · intro t2 hm
    have h2 := (store_iff_finalize_postComplete cfg env st).mp ⟨t2, hm⟩
    have h3 := finalize_mem_postComplete_download cfg env st h2.1
    rw [hd] at h3
    exact Option.noConfusion h3

theorem countSetTT_postComplete (cfg : mainWrapperConfig) (env : FetchEnv)
    (st : JobStatus) :
    countSetTT (postComplete cfg env st).2 = 1 := by
  have hb0 : countSetTT (buildPipelinePhase cfg env).2 = 0 :=
    countSetTT_of_all_build (buildPipelinePhase_all_build cfg env)
  unfold postComplete
  rcases hb : (buildPipelinePhase cfg env).1 with _ | e <;> simp only [hb]
  · show countSetTT (.setTransactionTime st.transactionTime ::
      ((buildPipelinePhase cfg env).2 ++
        (runFromPipeline env st.transactionTime st.resultURLs).2)) = 1
    rw [countSetTT, List.countP_cons]
    rw [show List.countP (fun e => match e with | .setTransactionTime _ => true | _ => false)
        ((buildPipelinePhase cfg env).2 ++
          (runFromPipeline env st.transactionTime st.resultURLs).2) =
        countSetTT ((buildPipelinePhase cfg env).2 ++
          (runFromPipeline env st.transactionTime st.resultURLs).2) from rfl]
    rw [countSetTT_append, hb0, countSetTT_runFromPipeline]
    rfl
  · show countSetTT (.setTransactionTime st.transactionTime ::
      (buildPipelinePhase cfg env).2) = 1
    rw [countSetTT, List.countP_cons]
    rw [show List.countP (fun e => match e with | .setTransactionTime _ => true | _ => false)
        (buildPipelinePhase cfg env).2 =
        countSetTT (buildPipelinePhase cfg env).2 from rfl]
    rw [hb0]
    rfl

theorem setTT_mem_postComplete (cfg : mainWrapperConfig) (env : FetchEnv)
    (st : JobStatus) (t : Nat)
    (h : Ev.setTransactionTime t ∈ (postComplete cfg env st).2) :
    t = st.transactionTime := by
  have hall := buildPipelinePhase_all_build cfg env
  unfold postComplete at h
  rcases hb : (buildPipelinePhase cfg env).1 with _ | e <;> simp only [hb] at h
  · rcases List.mem_cons.mp h with h | h
    · injection h
    rcases List.mem_append.mp h with h | h
    · exact absurd h (setTT_not_build hall t)
    · exact absurd h (setTT_not_runFromPipeline env st.transactionTime st.resultURLs t)
  · rcases List.mem_cons.mp h with h | h
    · injection h
    · exact absurd h (setTT_not_build hall t)

theorem setTT_not_pre {tr : List Ev} (h : tr.all isPreEv = true) (t : Nat) :
    Ev.setTransactionTime t ∉ tr :=
  not_mem_of_all h rfl

theorem storeCall_not_pre {tr : List Ev} (h : tr.all isPreEv = true) (t : Nat) :
    Ev.storeCall t ∉ tr :=
  not_mem_of_all h rfl

theorem finalizeCall_not_pre {tr : List Ev} (h : tr.all isPreEv = true) :
    Ev.finalizeCall ∉ tr :=
  not_mem_of_all h rfl

theorem getDataCall_not_pre {tr : List Ev} (h : tr.all isPreEv = true)
    (u : String) (n : Nat) : Ev.getDataCall u n ∉ tr :=
  not_mem_of_all h rfl

theorem countSetTT_of_all_pre {tr : List Ev} (h : tr.all isPreEv = true) :
    countSetTT tr = 0 := by
  unfold countSetTT
  rw [List.countP_eq_zero]
  intro a ha
  have h2 := List.all_eq_true.mp h a ha
  rcases a <;> simp_all [isPreEv]

theorem mainWrapper_split (cfg : mainWrapperConfig) (env : FetchEnv) :
    (reachesComplete cfg env = false ∧
      ((mainWrapper cfg env).2).all isPreEv = true) ∨
    (∃ last, env.monitorEvents.getLast? = some last ∧
      last.status.isComplete = true ∧ reachesComplete cfg env = true ∧
      (mainWrapper cfg env).1 = (postComplete cfg env last.status).1 ∧
      ∃ pre, (mainWrapper cfg env).2 = pre ++ (postComplete cfg env last.status).2 ∧
        pre.all isPreEv = true) := by
  rcases hce : configError cfg with _ | e
  case some =>
    exact Or.inl ⟨by simp [reachesComplete, hce],
      by simp [mainWrapper, hce]⟩
  rcases hcl : env.clientBuild with e | u
  · exact Or.inl ⟨by simp [reachesComplete, hce, hcl, exOk],
      by simp [mainWrapper, hce, hcl, isPreEv]⟩
  rcases hst : getTransactionTimeStore cfg env with e | st
  · exact Or.inl ⟨by simp [reachesComplete, hce, hcl, hst, exOk],
      by simp [mainWrapper, hce, hcl, hst, isPreEv]⟩
  rcases hl : env.load with e | sv
  · exact Or.inl ⟨by simp [reachesComplete, hce, hcl, hst, hl, exOk],
      by simp [mainWrapper, hce, hcl, hst, hl, isPreEv]⟩
  by_cases hp : cfg.pendingJobURL = ("")
  · rcases hse : env.startExport with e | u2
    · exact Or.inl ⟨by simp [reachesComplete, hce, hcl, hst, hl, hp, hse, exOk],
        by simp [mainWrapper, hce, hcl, hst, hl, hp, hse, isPreEv]⟩
    rcases hm : env.monitorEvents.getLast? with _ | last
    · exact Or.inl ⟨by simp [reachesComplete, hce, hcl, hst, hl, hp, hse, hm, exOk],
        by simp [mainWrapper, hce, hcl, hst, hl, hp, hse, hm, isPreEv]⟩
    rcases hcomp : last.status.isComplete with _ | _
    · exact Or.inl ⟨by simp [reachesComplete, hce, hcl, hst, hl, hp, hse, hm, hcomp, exOk],
        by simp [mainWrapper, hce, hcl, hst, hl, hp, hse, hm, hcomp, isPreEv]⟩
    · refine Or.inr ⟨last, rfl, hcomp,
        by simp [reachesComplete, hce, hcl, hst, hl, hp, hse, hm, hcomp, exOk],
        by simp [mainWrapper, hce, hcl, hst, hl, hp, hse, hm, hcomp],
        [.buildClient, .loadSince, .startExport],
        by simp [mainWrapper, hce, hcl, hst, hl, hp, hse, hm, hcomp],
        by simp [isPreEv]⟩
  · rcases hm : env.monitorEvents.getLast? with _ | last
    · exact Or.inl ⟨by simp [reachesComplete, hce, hcl, hst, hl, hp, hm, exOk],
        by simp [mainWrapper, hce, hcl, hst, hl, hp, hm, isPreEv]⟩
    rcases hcomp : last.status.isComplete with _ | _
    · exact Or.inl ⟨by simp [reachesComplete, hce, hcl, hst, hl, hp, hm, hcomp, exOk],
        by simp [mainWrapper, hce, hcl, hst, hl, hp, hm, hcomp, isPreEv]⟩
    · refine Or.inr ⟨last, rfl, hcomp,
        by simp [reachesComplete, hce, hcl, hst, hl, hp, hm, hcomp, exOk],
        by simp [mainWrapper, hce, hcl, hst, hl, hp, hm, hcomp],
        [.buildClient, .loadSince],
        by simp [mainWrapper, hce, hcl, hst, hl, hp, hm, hcomp],
        by simp [isPreEv]⟩

theorem fetchedURLs_append (a b : List Ev) :
    fetchedURLs (a ++ b) = fetchedURLs a ++ fetchedURLs b :=
  List.filterMap_append a b _

theorem fetchedURLs_of_all_pre {tr : List Ev} (h : tr.all isPreEv = true) :
    fetchedURLs tr = [] := by
  unfold fetchedURLs
  rw [List.filterMap_eq_nil_iff]
  intro a ha
  have h2 := List.all_eq_true.mp h a ha
  rcases a <;> simp_all [isPreEv]

theorem fetchedURLs_of_all_build {tr : List Ev} (h : tr.all isBuildEv = true) :
    fetchedURLs tr = [] := by
  unfold fetchedURLs
  rw [List.filterMap_eq_nil_iff]
  intro a ha
  have h2 := List.all_eq_true.mp h a ha
  rcases a <;> simp_all [isBuildEv]

theorem fetchedURLs_loopAux (url : String) (g : Nat → GetDataResult)
    (a : Nat → Option String) :
    ∀ budget cur n, fetchedURLs (getDataLoopAux url g a budget cur n).2 = [] := by
  intro budget
  induction budget with
  | zero =>
    intro cur n
    rcases cur <;> simp [getDataLoopAux, fetchedURLs]
  | succ b ih =>
    intro cur n
    by_cases hr : isRetryableErr cur
    · rcases ha : a n with _ | msg
      · have h2 := ih (g (n + 1)) (n + 1)
        unfold fetchedURLs at h2 ⊢
        simp [getDataLoopAux, hr, ha, h2]
      · simp [getDataLoopAux, hr, ha, fetchedURLs]
    · rcases cur <;> simp [getDataLoopAux, hr, fetchedURLs]

theorem fetchedURLs_getDataOrExit (url : String) (g : Nat → GetDataResult)
    (a : Nat → Option String) :
    fetchedURLs (getDataOrExit url g a).2 = [url] := by
  have h2 := fetchedURLs_loopAux url g a 5 (g 0) 0
  unfold fetchedURLs at h2 ⊢
  simp [getDataOrExit, h2]

theorem fetchedURLs_processStream (p : String → String → NDRecord → Option String)
    (rt url : String) :
    ∀ s, fetchedURLs (processStream p rt url s).2 = [] := by
  intro s
  induction s with
  | nil => simp [processStream, fetchedURLs]
  | cons r rest ih =>
    by_cases ho : r.size > maxTokenSize
    · simp [processStream, ho, fetchedURLs]
    · rcases hp : p rt url r with _ | e
      · unfold fetchedURLs at ih ⊢
        simp [processStream, ho, hp, ih]
      · simp [processStream, ho, hp, fetchedURLs]

theorem fetchedURLs_downloadURL (env : FetchEnv) (rt url : String) :
    fetchedURLs (downloadURL env rt url).2 = [url] := by
  unfold downloadURL
  rcases hf : (getDataOrExit url (env.getData url) (env.auth url)).1 with e | s
  · simp only [hf]
    exact fetchedURLs_getDataOrExit url (env.getData url) (env.auth url)
  · simp only [hf]
    rw [fetchedURLs_append, fetchedURLs_getDataOrExit, fetchedURLs_processStream]
    rfl

theorem downloadList_fetched (env : FetchEnv) (rt : String) :
    ∀ urls, (fetchedURLs (downloadList env rt urls).2 <+: urls) ∧
      ((downloadList env rt urls).1 = none →
        fetchedURLs (downloadList env rt urls).2 = urls) := by
  intro urls
  induction urls with
  | nil =>
    constructor
    · simp [downloadList, fetchedURLs]
    · intro _
      simp [downloadList, fetchedURLs]
  | cons url rest ih =>
    unfold downloadList
    rcases hd : (downloadURL env rt url).1 with _ | e
    · constructor
      · simp only [hd]
        rw [fetchedURLs_append, fetchedURLs_downloadURL]
        rcases ih.1 with ⟨tl, htl⟩
        exact ⟨tl, by rw [List.append_assoc, htl]; exact List.singleton_append⟩
      · intro hnone
        simp only [hd] at hnone ⊢
        rw [fetchedURLs_append, fetchedURLs_downloadURL, ih.2 hnone]
        exact List.singleton_append
    · constructor
      · simp only [hd]
        rw [fetchedURLs_downloadURL]
        exact ⟨rest, List.singleton_append⟩
      · intro hnone
        simp only [hd] at hnone
        exact Option.noConfusion hnone

theorem downloadAll_fetched (env : FetchEnv) :
    ∀ ru, (fetchedURLs (downloadAll env ru).2 <+: (ru.map Prod.snd).flatten) ∧
      ((downloadAll env ru).1 = none →
        fetchedURLs (downloadAll env ru).2 = (ru.map Prod.snd).flatten) := by
  intro ru
  induction ru with
  | nil =>
    constructor
    · simp [downloadAll, fetchedURLs]
    · intro _
      simp [downloadAll, fetchedURLs]
  | cons p rest ih =>
    obtain ⟨rt, urls⟩ := p
    have hflat : (((rt, urls) :: rest).map Prod.snd).flatten =
        urls ++ (rest.map Prod.snd).flatten := by
      simp
    unfold downloadAll
    rcases hd : (downloadList env rt urls).1 with _ | e
    · constructor
      · simp only [hd]
        rw [hflat, fetchedURLs_append, (downloadList_fetched env rt urls).2 hd]
        rcases ih.1 with ⟨tl, htl⟩
        exact ⟨tl, by rw [List.append_assoc, htl]⟩
      · intro hnone
        simp only [hd] at hnone ⊢
        rw [hflat, fetchedURLs_append, (downloadList_fetched env rt urls).2 hd,
          ih.2 hnone]
    · constructor
      · simp only [hd]
        rw [hflat]
        rcases (downloadList_fetched env rt urls).1 with ⟨tl, htl⟩
        exact ⟨tl ++ (rest.map Prod.snd).flatten,
          by rw [← List.append_assoc, htl]⟩
      · intro hnone
        simp only [hd] at hnone
        exact Option.noConfusion hnone

theorem fetchedURLs_runFromPipeline (env : FetchEnv) (t : Nat)
    (ru : List (String × List String)) :
    fetchedURLs (runFromPipeline env t ru).2 = fetchedURLs (downloadAll env ru).2 := by
  unfold runFromPipeline
  rcases hd : (downloadAll env ru).1 with _ | e
  · rcases hf : env.finalize with _ | e2
    · rcases hs : env.store with _ | e3 <;> simp only [hd, hf, hs] <;>
        rw [fetchedURLs_append] <;> simp [fetchedURLs]
    · simp only [hd, hf]
      rw [fetchedURLs_append]
      simp [fetchedURLs]
  · simp only [hd]

theorem fetchedURLs_postComplete (cfg : mainWrapperConfig) (env : FetchEnv)
    (st : JobStatus) :
    fetchedURLs (postComplete cfg env st).2 <+: (st.resultURLs.map Prod.snd).flatten := by
  have hbNil : fetchedURLs (buildPipelinePhase cfg env).2 = [] :=
    fetchedURLs_of_all_build (buildPipelinePhase_all_build cfg env)
  unfold postComplete
  rcases hb : (buildPipelinePhase cfg env).1 with _ | e <;> simp only [hb]
  · have hhead : fetchedURLs (Ev.setTransactionTime st.transactionTime ::
        ((buildPipelinePhase cfg env).2 ++
          (runFromPipeline env st.transactionTime st.resultURLs).2)) =
        fetchedURLs ((buildPipelinePhase cfg env).2 ++
          (runFromPipeline env st.transactionTime st.resultURLs).2) := by
      unfold fetchedURLs
      rw [List.filterMap_cons]
    rw [hhead, fetchedURLs_append, hbNil, List.nil_append,
      fetchedURLs_runFromPipeline]
    exact (downloadAll_fetched env st.resultURLs).1
  · have hhead : fetchedURLs (Ev.setTransactionTime st.transactionTime ::
        (buildPipelinePhase cfg env).2) =
        fetchedURLs (buildPipelinePhase cfg env).2 := by
      unfold fetchedURLs
      rw [List.filterMap_cons]
    rw [hhead, hbNil]
    exact List.nil_prefix

theorem processStream_clean (process : String → String → NDRecord → Option String)
    (rt url : String) :
    ∀ s, (∀ r ∈ s, process rt url r = none) →
      (processStream process rt url s).1 =
        (if s.any oversize then some RunError.scanTooLong else none) := by
  intro s
  induction s with
  | nil =>
    intro _
    simp [processStream]
  | cons r rest ih =>
    intro hp
    by_cases ho : r.size > maxTokenSize
    · simp [processStream, ho, oversize, List.any_cons]
    · have hpr := hp r (List.mem_cons_self r rest)
      have hrest := ih (fun r2 hr2 => hp r2 (List.mem_cons_of_mem r hr2))
      simp [processStream, ho, hpr, hrest, oversize, List.any_cons]

theorem downloadURL_clean (env : FetchEnv) (rt url : String) (s : List NDRecord)
    (hf : env.getData url 0 = .ok s)
    (hp : ∀ r ∈ s, env.process rt url r = none) :
    (downloadURL env rt url).1 =
      (if s.any oversize then some RunError.scanTooLong else none) := by
  have hget : (getDataOrExit url (env.getData url) (env.auth url)).1 = .ok s := by
    simp [getDataOrExit, getDataLoopAux, hf, isRetryableErr]
  unfold downloadURL
  simp only [hget]
  exact processStream_clean env.process rt url s hp

theorem downloadList_clean (env : FetchEnv) (rt : String) :
    ∀ urls, (∀ url ∈ urls, env.getData url 0 = .ok (streamOf env url)) →
      (∀ url ∈ urls, ∀ r ∈ streamOf env url, env.process rt url r = none) →
      (downloadList env rt urls).1 =
        (if urls.any (fun url => (streamOf env url).any oversize)
          then some RunError.scanTooLong else none) := by
  intro urls
  induction urls with
  | nil =>
    intro _ _
    simp [downloadList]
  | cons url rest ih =>
    intro hf hp
    have hdu := downloadURL_clean env rt url (streamOf env url)
      (hf url (List.mem_cons_self url rest)) (hp url (List.mem_cons_self url rest))
    have hrest := ih (fun u hu => hf u (List.mem_cons_of_mem url hu))
      (fun u hu => hp u (List.mem_cons_of_mem url hu))
    rcases ho : (streamOf env url).any oversize with _ | _ <;> rw [ho] at hdu
    · simp only [if_neg (by simp : ¬(false = true))] at hdu
      unfold downloadList
      simp [hdu, hrest, List.any_cons, ho]
    · simp only [if_pos rfl] at hdu
      unfold downloadList
      simp [hdu, List.any_cons, ho]

theorem downloadAll_clean (env : FetchEnv) :
    ∀ ru, (∀ p ∈ ru, ∀ url ∈ p.2, env.getData url 0 = .ok (streamOf env url)) →
      (∀ p ∈ ru, ∀ url ∈ p.2, ∀ r ∈ streamOf env url,
        env.process p.1 url r = none) →
      (downloadAll env ru).1 =
        (if ru.any (fun p => p.2.any fun url => (streamOf env url).any oversize)
          then some RunError.scanTooLong else none) := by
  intro ru
  induction ru with
  | nil =>
    intro _ _
    simp [downloadAll]
  | cons p rest ih =>
    intro hf hp
    obtain ⟨rt, urls⟩ := p
    have hdl := downloadList_clean env rt urls
      (fun u hu => hf (rt, urls) (List.mem_cons_self _ rest) u hu)
      (fun u hu => hp (rt, urls) (List.mem_cons_self _ rest) u hu)
    have hrest := ih (fun q hq => hf q (List.mem_cons_of_mem _ hq))
      (fun q hq => hp q (List.mem_cons_of_mem _ hq))
    rcases ho : urls.any (fun url => (streamOf env url).any oversize) with _ | _ <;>
      rw [ho] at hdl
    · simp only [if_neg (by simp : ¬(false = true))] at hdl
      unfold downloadAll
      simp [hdl, hrest, List.any_cons, ho]
      rw [ho, Bool.false_or]
    · simp only [if_pos rfl] at hdl
      unfold downloadAll
      simp [hdl, List.any_cons, ho]

theorem fetchesOkB_spec {env : FetchEnv} {ru : List (String × List String)}
    (h : fetchesOkB env ru = true) :
    ∀ p ∈ ru, ∀ url ∈ p.2, env.getData url 0 = .ok (streamOf env url) := by
  intro p hp url hu
  have h1 := List.all_eq_true.mp h p hp
  have h2 := List.all_eq_true.mp h1 url hu
  rcases hg : env.getData url 0 with s | _ | _ | m <;> rw [hg] at h2 <;>
    simp_all [streamOf, hg]

theorem processOkB_spec {env : FetchEnv} {ru : List (String × List String)}
    (h : processOkB env ru = true) :
    ∀ p ∈ ru, ∀ url ∈ p.2, ∀ r ∈ streamOf env url,
      env.process p.1 url r = none := by
  intro p hp url hu r hr
  have h1 := List.all_eq_true.mp
    (List.all_eq_true.mp (List.all_eq_true.mp h p hp) url hu) r hr
  exact Option.isNone_iff_eq_none.mp h1

/-- A re-authentication failure at retry `n` of the fetch loop: entered
at `numRetries = m` with every attempt up to `n` retryable, the loop
re-authenticates successfully before retries `m..n-1` and fails before
retry `n`, returning the wrapped auth error with `n - m` further
`GetData` calls and `n - m + 1` re-authentications and sleeps. -/
theorem getDataLoopAux_auth_fail (url : String) (g : Nat → GetDataResult)
    (a : Nat → Option String) (e : String) :
    ∀ budget m n, budget + m = 5 → m ≤ n → n < 5 →
      (∀ k, m ≤ k → k ≤ n → isRetryableErr (g k) = true) →
      (∀ k, m ≤ k → k < n → a k = none) →
      a n = some e →
      (getDataLoopAux url g a budget (g m) m).1 = .error (.authErr e) ∧
      countGetData (getDataLoopAux url g a budget (g m) m).2 = n - m ∧
      countAuth (getDataLoopAux url g a budget (g m) m).2 = n - m + 1 ∧
      countSleeps (getDataLoopAux url g a budget (g m) m).2 = n - m + 1 := by
  intro budget
  induction budget with
  | zero =>
    intro m n h5 hmn hn5 _ _ _
    omega
  | succ b ih =>
    intro m n h5 hmn hn5 hr ha hae
    have hcur : isRetryableErr (g m) = true := hr m le_rfl hmn
    by_cases hmn2 : m = n
    · subst hmn2
      have hstep : getDataLoopAux url g a (b + 1) (g m) m =
          (.error (.authErr e), [.sleepEv, .authCall url m]) := by
        simp [getDataLoopAux, hcur, hae]
      rw [hstep]
      refine ⟨rfl, ?_, ?_, ?_⟩ <;>
        simp [countGetData, countAuth, countSleeps]
    · have hlt : m < n := lt_of_le_of_ne hmn hmn2
      have ham : a m = none := ha m le_rfl hlt
      have hrec := ih (m + 1) n (by omega) (by omega) hn5
        (fun k hk1 hk2 => hr k (by omega) hk2)
        (fun k hk1 hk2 => ha k (by omega) hk2) hae
      have hstep : getDataLoopAux url g a (b + 1) (g m) m =
          ((getDataLoopAux url g a b (g (m + 1)) (m + 1)).1,
            .sleepEv :: .authCall url m :: .getDataCall url (m + 1) ::
              (getDataLoopAux url g a b (g (m + 1)) (m + 1)).2) := by
        simp [getDataLoopAux, hcur, ham]
      rw [hstep]
      refine ⟨hrec.1, ?_, ?_, ?_⟩
      · simp [countGetData, List.countP_cons] at hrec ⊢
        omega
      · simp [countAuth, List.countP_cons] at hrec ⊢
        omega
      · simp [countSleeps, List.countP_cons] at hrec ⊢
        omega

/-! ## Claims about the resilient fetcher (`getDataOrExit`) -/

/-- Claim C10: if, during any retry `n` (retries remaining, `n < 5`) of a
failed download, the re-authentication call itself returns an error,
`getDataOrExit` immediately returns an authentication error wrapping the
re-authentication failure (not the download failure) and attempts no
further download or retry: exactly the `n + 1` download attempts `0..n`,
`n + 1` re-authentication calls (the `n` successful ones plus the failing
one) and `n + 1` backoff sleeps occur. -/
theorem reauth_failure_aborts_fetch (url : String) (getData : Nat → GetDataResult)
    (auth : Nat → Option String) (e : String) (n : Nat) (hn : n < 5)
    (hretry : ∀ k, k ≤ n → isRetryableErr (getData k) = true)
    (hauth : ∀ k, k < n → auth k = none)
    (hfail : auth n = some e) :
    (getDataOrExit url getData auth).1 = .error (.authErr e) ∧
    countGetData (getDataOrExit url getData auth).2 = n + 1 ∧
    countAuth (getDataOrExit url getData auth).2 = n + 1 ∧
    countSleeps (getDataOrExit url getData auth).2 = n + 1 := by
  have h := getDataLoopAux_auth_fail url getData auth e 5 0 n (by omega)
    (Nat.zero_le n) hn (fun k _ hk => hretry k hk) (fun k _ hk => hauth k hk) hfail
  unfold getDataOrExit
  refine ⟨h.1, ?_, ?_, ?_⟩
  · simp [countGetData, List.countP_cons] at h ⊢
    omega
  · simp [countAuth, List.countP_cons] at h ⊢
    omega
  · simp [countSleeps, List.countP_cons] at h ⊢
    omega

/-- Witness for C10 at a concrete input: every attempt unauthorized,
re-authentication succeeding at retries 0 and 1 and failing at retry 2
with message "boom". -/
theorem reauth_failure_aborts_fetch_witness :
    (getDataOrExit ("u") (fun _ => .errUnauthorized)
        (fun k => if k = 2 then some ("boom") else none)).1 =
      .error (.authErr ("boom")) ∧
    countGetData (getDataOrExit ("u") (fun _ => .errUnauthorized)
        (fun k => if k = 2 then some ("boom") else none)).2 = 3 ∧
    countAuth (getDataOrExit ("u") (fun _ => .errUnauthorized)
        (fun k => if k = 2 then some ("boom") else none)).2 = 3 :=
  have h := reauth_failure_aborts_fetch ("u") (fun _ => .errUnauthorized)
    (fun k => if k = 2 then some ("boom") else none) ("boom") 2 (by omega)
    (fun _ _ => rfl) (fun k hk => if_neg (by omega)) rfl
  ⟨h.1, h.2.1, h.2.2.1⟩

/-- Claim C2: if every download attempt fails with an unauthorized or
retryable-transport classification (and re-authentication succeeds),
`getDataOrExit` performs exactly 5 retries after the initial attempt —
re-authenticating and sleeping before each retry, hence 5 `Authenticate`
calls, 5 sleeps and 6 `GetData` attempts — and returns an error wrapping
the last underlying error (that of attempt 5) and the URL. -/
theorem fetch_retries_exhausted (url : String) (getData : Nat → GetDataResult)
    (auth : Nat → Option String)
    (hfail : ∀ n, n ≤ 5 → isRetryableErr (getData n) = true)
    (hauth : ∀ n, n < 5 → auth n = none) :
    (getDataOrExit url getData auth).1 = .error (.getDataErr url (getData 5)) ∧
    countAuth (getDataOrExit url getData auth).2 = 5 ∧
    countSleeps (getDataOrExit url getData auth).2 = 5 ∧
    countGetData (getDataOrExit url getData auth).2 = 6 := by
  have h0 := hfail 0 (by omega)
  have h1 := hfail 1 (by omega)
  have h2 := hfail 2 (by omega)
  have h3 := hfail 3 (by omega)
  have h4 := hfail 4 (by omega)
  have h5 := hfail 5 (by omega)
  have a0 := hauth 0 (by omega)
  have a1 := hauth 1 (by omega)
  have a2 := hauth 2 (by omega)
  have a3 := hauth 3 (by omega)
  have a4 := hauth 4 (by omega)
  rcases e5 : getData 5 with s | _ | _ | m <;> rw [e5] at h5
  · simp [isRetryableErr] at h5
  · simp [getDataOrExit, getDataLoopAux, h0, h1, h2, h3, h4, e5, a0, a1, a2, a3, a4,
      countAuth, countSleeps, countGetData]
  · simp [getDataOrExit, getDataLoopAux, h0, h1, h2, h3, h4, e5, a0, a1, a2, a3, a4,
      countAuth, countSleeps, countGetData]
  · simp [isRetryableErr] at h5

/-- Witness for C2 at a concrete input: every attempt returns
unauthorized and every re-authentication succeeds. -/
theorem fetch_retries_exhausted_witness :
    (getDataOrExit ("u") (fun _ => .errUnauthorized) (fun _ => none)).1 =
      .error (.getDataErr ("u") .errUnauthorized) ∧
    countAuth (getDataOrExit ("u") (fun _ => .errUnauthorized)
      (fun _ => none)).2 = 5 ∧
    countGetData (getDataOrExit ("u") (fun _ => .errUnauthorized)
      (fun _ => none)).2 = 6 :=
  have h := fetch_retries_exhausted ("u") (fun _ => .errUnauthorized)
    (fun _ => none) (fun _ _ => rfl) (fun _ _ => rfl)
  ⟨h.1, h.2.1, h.2.2.2⟩

/-- Claim C8: if `GetData` fails with an unauthorized classification on
the first 3 attempts (attempts 0, 1, 2) and succeeds on the 4th
(attempt 3), `getDataOrExit` returns the successfully obtained byte
stream and `Authenticate` is invoked exactly 3 times. -/
theorem fetch_success_after_three_unauthorized (url : String)
    (getData : Nat → GetDataResult) (auth : Nat → Option String)
    (s : List NDRecord)
    (h0 : getData 0 = .errUnauthorized) (h1 : getData 1 = .errUnauthorized)
    (h2 : getData 2 = .errUnauthorized) (h3 : getData 3 = .ok s)
    (ha : ∀ n, n < 3 → auth n = none) :
    (getDataOrExit url getData auth).1 = .ok s ∧
    countAuth (getDataOrExit url getData auth).2 = 3 := by
  have a0 := ha 0 (by omega)
  have a1 := ha 1 (by omega)
  have a2 := ha 2 (by omega)
  simp [getDataOrExit, getDataLoopAux, h0, h1, h2, h3, a0, a1, a2, countAuth,
    isRetryableErr]

/-- Witness for C8 at a concrete input: unauthorized on attempts 0-2,
success with the empty stream on attempt 3, re-authentication always
succeeding. -/
theorem fetch_success_after_three_unauthorized_witness :
    (getDataOrExit ("u")
        (fun n => if n = 3 then .ok [] else .errUnauthorized)
        (fun _ => none)).1 = .ok [] ∧
    countAuth (getDataOrExit ("u")
        (fun n => if n = 3 then .ok [] else .errUnauthorized)
        (fun _ => none)).2 = 3 :=
  fetch_success_after_three_unauthorized ("u")
    (fun n => if n = 3 then .ok [] else .errUnauthorized)
    (fun _ => none) [] rfl rfl rfl rfl (fun _ _ => rfl)

/-! ## Claims about configuration validation -/

/-- Claim C5: for every configuration in which the client ID or the
client secret is empty, the run fails with the descriptive configuration
error before any client is constructed or any remote call is made — the
event trace is empty. -/
theorem empty_credentials_fail_early (cfg : mainWrapperConfig) (env : FetchEnv)
    (h : cfg.clientID = ("") ∨ cfg.clientSecret = ("")) :
    (mainWrapper cfg env).1 = .error .emptyCredentials ∧
    (mainWrapper cfg env).2 = [] := by
  have hc : configError cfg = some .emptyCredentials := by
    unfold configError
    rw [if_pos h]
  simp [mainWrapper, hc]

/-- Witness for C5 at a concrete input: an otherwise valid configuration
with an empty client ID. -/
theorem empty_credentials_fail_early_witness :
    (mainWrapper { cfgHappy with clientID := ("") } (envHappy [])).1 =
      .error .emptyCredentials ∧
    (mainWrapper { cfgHappy with clientID := ("") } (envHappy [])).2 = [] :=
  empty_credentials_fail_early { cfgHappy with clientID := ("") }
    (envHappy []) (Or.inl rfl)

/-- Claim C9: for every configuration setting more than one of the three
checkpoint sources (explicit override value, local since-file path,
remote `gs://` since-file path), the run fails with the mutual-exclusion
configuration error, raised before any export job is started: the trace
stops at client construction and contains no `StartBulkDataExport`
call. -/
theorem conflicting_since_sources_error (cfg : mainWrapperConfig) (env : FetchEnv)
    (hs : 2 ≤ numSinceSources cfg)
    (hc : configError cfg = none) (hcl : env.clientBuild = .ok ()) :
    (mainWrapper cfg env).1 = .error .sinceConfigConflict ∧
    (mainWrapper cfg env).2 = [.buildClient] ∧
    Ev.startExport ∉ (mainWrapper cfg env).2 := by
  have hgs : ¬ (hasGSPrefix ("") = true) := by decide
  have hboth : cfg.since ≠ ("") ∧ cfg.sinceFile ≠ ("") := by
    constructor
    · intro h1
      unfold numSinceSources at hs
      rw [if_neg (fun hx : cfg.since ≠ ("") => hx h1)] at hs
      by_cases h3 : hasGSPrefix cfg.sinceFile
      · rw [if_neg (fun hx : cfg.sinceFile ≠ ("") ∧
            ¬hasGSPrefix cfg.sinceFile => hx.2 h3), if_pos h3] at hs
        omega
      · rw [if_neg h3] at hs
        split_ifs at hs <;> omega
    · intro h2
      unfold numSinceSources at hs
      have h3 : ¬ hasGSPrefix cfg.sinceFile := by
        rw [h2]; exact hgs
      rw [if_neg (fun hx : cfg.sinceFile ≠ ("") ∧
          ¬hasGSPrefix cfg.sinceFile => hx.1 h2), if_neg h3] at hs
      split_ifs at hs <;> omega
  have hst : getTransactionTimeStore cfg env = .error .sinceConfigConflict := by
    unfold getTransactionTimeStore
    rw [if_pos hboth]
  simp [mainWrapper, hc, hcl, hst]

/-- Witness for C9 at a concrete input: both the explicit `since` value
and a local since-file are configured. -/
theorem conflicting_since_sources_error_witness :
    (mainWrapper cfgConflictW (envHappy [])).1 = .error .sinceConfigConflict ∧
    (mainWrapper cfgConflictW (envHappy [])).2 = [.buildClient] :=
  have h := conflicting_since_sources_error cfgConflictW (envHappy [])
    (by decide) rfl rfl
  ⟨h.1, h.2.1⟩

/-! ## Claims about job polling and the transaction time -/

/-- Claim C3: for every job whose status never reports complete before
the polling timeout — the monitor's event sequence ends with a terminal
event whose completion flag is false — the run (having passed all prior
phases) fails with the timeout error, and no download, no checkpoint
store and no transaction-time set is performed. -/
theorem job_timeout_fails_run (cfg : mainWrapperConfig) (env : FetchEnv)
    (last : MonitorResult)
    (hc : configError cfg = none) (hcl : exOk env.clientBuild = true)
    (hst : exOk (getTransactionTimeStore cfg env) = true)
    (hl : exOk env.load = true)
    (hj : cfg.pendingJobURL ≠ ("") ∨ exOk env.startExport = true)
    (hm : env.monitorEvents.getLast? = some last)
    (hnc : last.status.isComplete = false) :
    (mainWrapper cfg env).1 = .error .jobTimeout ∧
    (∀ u n, Ev.getDataCall u n ∉ (mainWrapper cfg env).2) ∧
    (∀ t, Ev.storeCall t ∉ (mainWrapper cfg env).2) ∧
    (∀ t, Ev.setTransactionTime t ∉ (mainWrapper cfg env).2) := by
  rcases hcl' : env.clientBuild with e | u
  · rw [hcl'] at hcl; simp [exOk] at hcl
  rcases hst' : getTransactionTimeStore cfg env with e | st
  · rw [hst'] at hst; simp [exOk] at hst
  rcases hl' : env.load with e | s
  · rw [hl'] at hl; simp [exOk] at hl
  by_cases hp : cfg.pendingJobURL = ("")
  · have hse : exOk env.startExport = true := by
      rcases hj with hj | hj
      · exact absurd hp hj
      · exact hj
    rcases hse' : env.startExport with e | u'
    · rw [hse'] at hse; simp [exOk] at hse
    simp [mainWrapper, hc, hcl', hst', hl', hp, hse', hm, hnc]
  · simp [mainWrapper, hc, hcl', hst', hl', hp, hm, hnc]

/-- Witness for C3 at a concrete input: the happy environment except that
the monitor's single (terminal) event reports an incomplete status. -/
theorem job_timeout_fails_run_witness :
    (mainWrapper cfgHappy
      { envHappy [] with monitorEvents := [⟨none, ⟨false, 10, [], 0⟩⟩] }).1 =
      .error .jobTimeout ∧
    (∀ t, Ev.storeCall t ∉ (mainWrapper cfgHappy
      { envHappy [] with monitorEvents := [⟨none, ⟨false, 10, [], 0⟩⟩] }).2) :=
  have h := job_timeout_fails_run cfgHappy
    { envHappy [] with monitorEvents := [⟨none, ⟨false, 10, [], 0⟩⟩] }
    ⟨none, ⟨false, 10, [], 0⟩⟩ rfl rfl rfl rfl (Or.inr rfl) rfl rfl
  ⟨h.1, h.2.2.1⟩


/-! ## Claims about the orchestrator run -/

/-- Claim C1: `Store` is invoked iff `Finalize` was invoked and
succeeded; `Finalize` is only invoked after the job completed and every
result URL of the completed job was fully downloaded with every record
processed without error (`downloadAll` returned no error); and when the
run reaches the download phase and any fetch, scan, or pipeline error
occurs, the run returns exactly that error with `Store` never called. -/
theorem checkpoint_store_iff (cfg : mainWrapperConfig) (env : FetchEnv) :
    ((∃ t, Ev.storeCall t ∈ (mainWrapper cfg env).2) ↔
      (Ev.finalizeCall ∈ (mainWrapper cfg env).2 ∧ env.finalize = none)) ∧
    (Ev.finalizeCall ∈ (mainWrapper cfg env).2 →
      ∃ last, env.monitorEvents.getLast? = some last ∧
        last.status.isComplete = true ∧
        (downloadAll env last.status.resultURLs).1 = none) ∧
    (reachesDownload cfg env = true →
      ∀ e, (downloadAll env (jobResultURLs env)).1 = some e →
        (mainWrapper cfg env).1 = .error e ∧
        ∀ t, Ev.storeCall t ∉ (mainWrapper cfg env).2) := by
  rcases mainWrapper_split cfg env with ⟨hrc, hall⟩ |
    ⟨last, hm, hcomp, hrc, hres, pre, htr, hpre⟩
  · refine ⟨?_, ?_, ?_⟩
    · constructor
      · rintro ⟨t, hmem⟩
        exact absurd hmem (storeCall_not_pre hall t)
      · rintro ⟨hmem, _⟩
        exact absurd hmem (finalizeCall_not_pre hall)
    · intro hmem
      exact absurd hmem (finalizeCall_not_pre hall)
    · intro h
      unfold reachesDownload at h
      rw [hrc] at h
      exact Bool.noConfusion h
  · have hmemS : ∀ t, (Ev.storeCall t ∈ (mainWrapper cfg env).2 ↔
        Ev.storeCall t ∈ (postComplete cfg env last.status).2) := by
      intro t
      rw [htr]
      constructor
      · intro hmem
        rcases List.mem_append.mp hmem with hmem | hmem
        · exact absurd hmem (storeCall_not_pre hpre t)
        · exact hmem
      · intro hmem
        exact List.mem_append.mpr (Or.inr hmem)
    have hmemF : Ev.finalizeCall ∈ (mainWrapper cfg env).2 ↔
        Ev.finalizeCall ∈ (postComplete cfg env last.status).2 := by
      rw [htr]
      constructor
      · intro hmem
        rcases List.mem_append.mp hmem with hmem | hmem
        · exact absurd hmem (finalizeCall_not_pre hpre)
        · exact hmem
      · intro hmem
        exact List.mem_append.mpr (Or.inr hmem)
    refine ⟨?_, ?_, ?_⟩
    · constructor
      · rintro ⟨t, hmem⟩
        have h2 := (store_iff_finalize_postComplete cfg env last.status).mp
          ⟨t, (hmemS t).mp hmem⟩
        exact ⟨hmemF.mpr h2.1, h2.2⟩
      · rintro ⟨hmem, hfin⟩
        rcases (store_iff_finalize_postComplete cfg env last.status).mpr
          ⟨hmemF.mp hmem, hfin⟩ with ⟨t, hmem2⟩
        exact ⟨t, (hmemS t).mpr hmem2⟩
    · intro hmem
      exact ⟨last, hm, hcomp,
        finalize_mem_postComplete_download cfg env last.status (hmemF.mp hmem)⟩
    · intro h e hd
      unfold reachesDownload at h
      rw [hrc, Bool.true_and, Option.isNone_iff_eq_none] at h
      have hru : jobResultURLs env = last.status.resultURLs := by
        simp [jobResultURLs, hm]
      rw [hru] at hd
      have h2 := postComplete_download_err cfg env last.status e h hd
      refine ⟨by rw [hres]; exact h2.1, ?_⟩
      intro t hmem
      exact h2.2 t ((hmemS t).mp hmem)

/-- Claim C6: within one run the transaction-time box is set at most
once; any set value is the transaction time of the monitor's terminal
status, which reported complete — so on every failing path before
completion it is never set — and whenever the run reaches the completion
check with a complete status it is set exactly once (hence never
overwritten). -/
theorem transaction_time_set_once (cfg : mainWrapperConfig) (env : FetchEnv) :
    countSetTT (mainWrapper cfg env).2 ≤ 1 ∧
    (∀ t, Ev.setTransactionTime t ∈ (mainWrapper cfg env).2 →
      ∃ last, env.monitorEvents.getLast? = some last ∧
        last.status.isComplete = true ∧ t = last.status.transactionTime) ∧
    (reachesComplete cfg env = true → countSetTT (mainWrapper cfg env).2 = 1) := by
  rcases mainWrapper_split cfg env with ⟨hrc, hall⟩ |
    ⟨last, hm, hcomp, hrc, hres, pre, htr, hpre⟩
  · refine ⟨?_, ?_, ?_⟩
    · rw [countSetTT_of_all_pre hall]
      omega
    · intro t hmem
      exact absurd hmem (setTT_not_pre hall t)
    · intro h
      rw [h] at hrc
      exact Bool.noConfusion hrc
  · have h1 : countSetTT (mainWrapper cfg env).2 = 1 := by
      rw [htr, countSetTT_append, countSetTT_of_all_pre hpre,
        countSetTT_postComplete]
    refine ⟨le_of_eq h1, ?_, fun _ => h1⟩
    intro t hmem
    rw [htr] at hmem
    rcases List.mem_append.mp hmem with hmem | hmem
    · exact absurd hmem (setTT_not_pre hpre t)
    · exact ⟨last, hm, hcomp, setTT_mem_postComplete cfg env last.status t hmem⟩

/-- Counterexample to claim C4 as stated: `ruA` and `ruB` are the same
result-URL map (a permutation of the same bindings), i.e. two runs over
the same completed job whose map `range` enumerates in two orders that
Go both allows; the two runs fetch the urls in different orders, so the
visiting order is not deterministic for the map alone. -/
theorem fetch_order_map_dependent_cex :
    List.Perm ruA ruB ∧
    fetchedURLs (mainWrapper cfgHappy (envHappy ruA)).2 = [("u1"), ("u2")] ∧
    fetchedURLs (mainWrapper cfgHappy (envHappy ruB)).2 = [("u2"), ("u1")] :=
  ⟨by decide, rfl, rfl⟩

/-- Claim C4, amended: the urls a run fetches follow the enumeration
order of the result-URL map it is given — they form a prefix (the whole
flattening, when no error aborts the loop) of the result urls flattened
in enumeration order, each resource type's urls in slice order.
Determinism holds only relative to that enumeration order; the
enumeration order itself is Go map iteration order, which is not
specified across runs (see `fetch_order_map_dependent_cex`). -/
theorem fetch_order_follows_enumeration (cfg : mainWrapperConfig) (env : FetchEnv) :
    fetchedURLs (mainWrapper cfg env).2 <+:
      ((jobResultURLs env).map Prod.snd).flatten := by
  rcases mainWrapper_split cfg env with ⟨hrc, hall⟩ |
    ⟨last, hm, hcomp, hrc, hres, pre, htr, hpre⟩
  · rw [fetchedURLs_of_all_pre hall]
    exact List.nil_prefix
  · rw [htr, fetchedURLs_append, fetchedURLs_of_all_pre hpre, List.nil_append]
    have hru : jobResultURLs env = last.status.resultURLs := by
      simp [jobResultURLs, hm]
    rw [hru]
    exact fetchedURLs_postComplete cfg env last.status

/-- Claim C7: when the run reaches the download phase and some result
url's downloaded stream contains a record exceeding `maxTokenSize`
(while fetches succeed and the pipeline accepts everything it is given),
the run fails with the scanner's record-too-long parse error, aborts
before `Finalize`, and never calls the checkpoint store's `Store`. -/
theorem oversize_record_aborts_run (cfg : mainWrapperConfig) (env : FetchEnv)
    (last : MonitorResult)
    (hrd : reachesDownload cfg env = true)
    (hm : env.monitorEvents.getLast? = some last)
    (hf : fetchesOkB env last.status.resultURLs = true)
    (hp : processOkB env last.status.resultURLs = true)
    (ho : anyOversizeB env last.status.resultURLs = true) :
    (mainWrapper cfg env).1 = .error .scanTooLong ∧
    Ev.finalizeCall ∉ (mainWrapper cfg env).2 ∧
    (∀ t, Ev.storeCall t ∉ (mainWrapper cfg env).2) := by
  have hd : (downloadAll env last.status.resultURLs).1 = some .scanTooLong := by
    rw [downloadAll_clean env last.status.resultURLs (fetchesOkB_spec hf)
      (processOkB_spec hp)]
    rw [show (last.status.resultURLs.any fun p =>
        p.2.any fun url => (streamOf env url).any oversize) =
      anyOversizeB env last.status.resultURLs from rfl, ho]
    rfl
  unfold reachesDownload at hrd
  rw [Bool.and_eq_true, Option.isNone_iff_eq_none] at hrd
  obtain ⟨hrc, hb⟩ := hrd
  rcases mainWrapper_split cfg env with ⟨hrc2, _⟩ |
    ⟨last2, hm2, hcomp2, _, hres, pre, htr, hpre⟩
  · rw [hrc] at hrc2
    exact Bool.noConfusion hrc2
  · have hl2 := hm.symm.trans hm2
    injection hl2 with hl2
    subst hl2
    have herr := postComplete_download_err cfg env last.status .scanTooLong hb hd
    refine ⟨by rw [hres]; exact herr.1, ?_, ?_⟩
    · intro hmem
      rw [htr] at hmem
      rcases List.mem_append.mp hmem with hmem | hmem
      · exact absurd hmem (finalizeCall_not_pre hpre)
      · have h3 := finalize_mem_postComplete_download cfg env last.status hmem
        rw [hd] at h3
        exact Option.noConfusion h3
    · intro t hmem
      rw [htr] at hmem
      rcases List.mem_append.mp hmem with hmem | hmem
      · exact absurd hmem (storeCall_not_pre hpre t)
      · exact herr.2 t hmem

/-- Witness for C7 at a concrete input: a single result url whose stream
is one record of `maxTokenSize + 1` bytes. -/
theorem oversize_record_aborts_run_witness :
    (mainWrapper cfgHappy envOversize).1 = .error .scanTooLong ∧
    (∀ t, Ev.storeCall t ∉ (mainWrapper cfgHappy envOversize).2) :=
  have h := oversize_record_aborts_run cfgHappy envOversize
    ⟨none, ⟨true, 100, [(("Patient"), [("u1")])], 7⟩⟩
    (by decide) rfl (by decide) (by decide) (by decide)
  ⟨h.1, h.2.2⟩

end BulkFhirFetch
